import Mathlib

/-!
Verification of the Torrent Metainfo Builder of Music-Upload-Assistant
(`src/modules/upload/torrent.py`, class `TorrentCreator`) against its
natural-language specification.

The Python module is shallowly embedded: byte strings become `List Nat`,
Python strings become `List Char`, the SHA-1 primitive (`hashlib.sha1`,
an external library call) is an abstract parameter `sha1 : Bytes → Bytes`
of every definition that hashes, and fallible code returns `Except`.
Each definition's doc comment names the Python function and lines it
embeds.
-/

namespace MUA

/-- Byte strings (Python `bytes`) are lists of byte values. -/
abbrev Bytes := List Nat

/-- Python `str` values are lists of characters (compared, as in Python,
by code point). -/
abbrev PyStr := List Char

/-- Python errors raised by the embedded code paths. -/
inductive PyError
  | importError
  | fileNotFound
  | valueError
  | attributeError
  | keyError
  | typeError
deriving DecidableEq, Repr

/-! ## Hashing engine -/

/-- Chunk splitting performed by the `f.read(piece_size)` loop of
`TorrentCreator._calculate_pieces` (torrent.py lines 285-296): successive
chunks of `pieceSize` bytes, the last possibly short.  `f.read(0)` returns
the empty byte string, so a zero piece size makes the loop exit at once. -/
def readChunks (pieceSize : Nat) (data : Bytes) : List Bytes :=
  if h : pieceSize = 0 ∨ data = [] then []
  else data.take pieceSize :: readChunks pieceSize (data.drop pieceSize)
termination_by data.length
decreasing_by
  push_neg at h
  simp only [List.length_drop]
  have hd : data.length ≠ 0 := fun hz => h.2 (List.length_eq_zero.mp hz)
  omega

/-- Embeds `TorrentCreator._calculate_pieces` (torrent.py lines 274-298):
each chunk read from the file is hashed with a fresh SHA-1 context and the
20-byte digests are concatenated. -/
def calculatePieces (sha1 : Bytes → Bytes) (pieceSize : Nat) (data : Bytes) : Bytes :=
  ((readChunks pieceSize data).map sha1).flatten

/-- Embeds one file's pass of the inner `while` loop of
`TorrentCreator._calculate_pieces_for_files` (torrent.py lines 321-338).
`buf` is the `piece_data` accumulator carried across files; `file` is the
remaining content of the current file.  `f.read(n)` returns
`min n remaining` bytes; an empty read ends the loop for this file.
Returns the completed piece chunks emitted and the new `piece_data`. -/
def feedFile (pieceSize : Nat) (buf file : Bytes) : List Bytes × Bytes :=
  if hf : file = [] then ([], buf)
  else
    let need := pieceSize - buf.length
    if hn : need = 0 then ([], buf)
    else
      let data := file.take need
      let buf2 := buf ++ data
      if buf2.length = pieceSize then
        let r := feedFile pieceSize [] (file.drop need)
        (buf2 :: r.1, r.2)
      else
        feedFile pieceSize buf2 (file.drop need)
termination_by file.length
decreasing_by
  all_goals
    simp only [List.length_drop]
    have hd : file.length ≠ 0 := fun hz => hf (List.length_eq_zero.mp hz)
    omega

/-- The `for file_info in files` fold of
`TorrentCreator._calculate_pieces_for_files` (torrent.py lines 316-338):
threads the `piece_data` buffer through the files, collecting the
completed piece chunks in order. -/
def multiFileChunks (pieceSize : Nat) (files : List Bytes) : List Bytes × Bytes :=
  files.foldl
    (fun acc f =>
      let r := feedFile pieceSize acc.2 f
      (acc.1 ++ r.1, r.2))
    ([], [])

/-- Embeds `TorrentCreator._calculate_pieces_for_files` (torrent.py lines
300-345): every completed piece chunk is hashed as it is finished, and a
trailing non-empty `piece_data` remainder is hashed as the final short
piece (lines 341-343). -/
def calculatePiecesForFiles (sha1 : Bytes → Bytes) (pieceSize : Nat)
    (files : List Bytes) : Bytes :=
  let st := multiFileChunks pieceSize files
  (st.1.map sha1).flatten ++ (if st.2 = [] then [] else sha1 st.2)

/-! ## Chunking lemmas

`chunkSplit` is the proof-side reference: splitting one contiguous byte
stream into its complete `p`-byte pieces plus the remainder.  Both the
single-file read loop and the multi-file buffer loop are shown to compute
it. -/

/-- Complete `p`-byte chunks of a stream together with the remaining
(shorter-than-`p`) tail. -/
def chunkSplit (p : Nat) (l : Bytes) : List Bytes × Bytes :=
  if h : l.length < p ∨ p = 0 then ([], l)
  else
    let r := chunkSplit p (l.drop p)
    (l.take p :: r.1, r.2)
termination_by l.length
decreasing_by
  push_neg at h
  simp only [List.length_drop]
  omega

/-! ## Piece-size policy -/

/-- Embeds `TorrentCreator._calculate_piece_size` (torrent.py lines
147-186), applied to the summed content size; the directory walk that
computes `total_size` is modelled by the caller passing the sum of all
file sizes. -/
def calculatePieceSize (totalSize : Nat) : Nat :=
  if totalSize < 50 * 1024 * 1024 then 16 * 1024
  else if totalSize < 150 * 1024 * 1024 then 32 * 1024
  else if totalSize < 350 * 1024 * 1024 then 64 * 1024
  else if totalSize < 512 * 1024 * 1024 then 128 * 1024
  else if totalSize < 1024 * 1024 * 1024 then 256 * 1024
  else if totalSize < 2 * 1024 * 1024 * 1024 then 512 * 1024
  else if totalSize < 4 * 1024 * 1024 * 1024 then 1024 * 1024
  else if totalSize < 8 * 1024 * 1024 * 1024 then 2 * 1024 * 1024
  else 4 * 1024 * 1024

/-! ## File tree walker and ordering

`_build_multi_file_info` (torrent.py lines 246-262) collects
`(path component list, size)` dictionaries from `os.walk` and then runs
`files.sort(key=lambda x: x['path'])`.  The sort key is the Python list
of path-component strings, compared by Python's lexicographic list
order with code-point string comparison.  The embedding carries each
file's content alongside its relative path so that the subsequent
hashing pass (which re-opens the files by path) can be expressed. -/

/-- Python string `<` on two strings: lexicographic by code point, a
proper prefix is smaller. -/
def strLt : PyStr → PyStr → Bool
  | [], [] => false
  | [], _ :: _ => true
  | _ :: _, [] => false
  | c :: cs, d :: ds =>
    if c < d then true
    else if d < c then false
    else strLt cs ds

/-- Python list `<` on path component lists (the `files.sort` key
comparison): elementwise by `strLt`, a proper prefix is smaller. -/
def pathLt : List PyStr → List PyStr → Bool
  | [], [] => false
  | [], _ :: _ => true
  | _ :: _, [] => false
  | a :: as, b :: bs =>
    if strLt a b then true
    else if strLt b a then false
    else pathLt as bs

/-- A walked file: relative path components paired with the file's
content bytes (the content stands for what `_calculate_pieces_for_files`
later reads back from disk at that path). -/
abbrev WalkedFile := List PyStr × Bytes

/-- Insertion step of the sort: the new element goes before the first
strictly greater key.  On the distinct keys produced by a directory walk
this computes the same ordering as Python's stable `list.sort`. -/
def insertByPath (x : WalkedFile) : List WalkedFile → List WalkedFile
  | [] => [x]
  | y :: ys => if pathLt x.1 y.1 then x :: y :: ys else y :: insertByPath x ys

/-- Embeds `files.sort(key=lambda x: x['path'])` (torrent.py line 262)
as an insertion sort by the path key. -/
def sortByPath : List WalkedFile → List WalkedFile
  | [] => []
  | x :: xs => insertByPath x (sortByPath xs)

/-! ## Filename sanitisation -/

/-- The characters of the raw Python string `r'<>:"/\\|?*'` iterated by
the replacement loop of `_sanitize_filename` (torrent.py line 134); a raw
string keeps both backslashes, so the backslash occurs twice. -/
def invalidChars : List Char :=
  ['<', '>', ':', '\"', '/', '\\', '\\', '|', '?', '*']

/-- Python `str.replace(c, r)` on every character. -/
def pyReplaceChar (c r : Char) (s : PyStr) : PyStr :=
  s.map fun x => if x = c then r else x

/-- The `for char in invalid_chars` replacement loop of
`_sanitize_filename` (torrent.py lines 134-136). -/
def replaceInvalid (s : PyStr) : PyStr :=
  invalidChars.foldl (fun acc c => pyReplaceChar c '_' acc) s

/-- Characters removed by `filename.strip('. ')`. -/
def isDotSpace (c : Char) : Bool := c = '.' || c = ' '

/-- Python `str.strip('. ')` (torrent.py line 139): drop leading and
trailing dots and spaces. -/
def stripDotsSpaces (s : PyStr) : PyStr :=
  ((s.dropWhile isDotSpace).reverse.dropWhile isDotSpace).reverse

/-- The fallback name built by the Python f-string interpolating
`int(time.time())`; `t` is the current unix time. -/
def albumName (t : Nat) : PyStr :=
  "album_".toList ++ (toString t).toList

/-- Embeds `TorrentCreator._sanitize_filename` (torrent.py lines
123-145), with `t` the current unix time used by the empty-result
fallback. -/
def sanitizeFilename (t : Nat) (filename : PyStr) : PyStr :=
  let fn := replaceInvalid filename
  let fn := stripDotsSpaces fn
  if fn = [] then albumName t else fn

/-- Embeds the root part of CPython's `os.path.splitext` on a basename:
the name is split at the last dot, unless every character before that
dot is itself a dot (so `.bashrc` keeps its name whole). -/
def splitextRoot (s : PyStr) : PyStr :=
  let r := s.reverse
  match r.dropWhile (fun c => c ≠ '.') with
  | [] => s
  | _ :: before => if before.any (fun c => c ≠ '.') then before.reverse else s

/-! ## Metainfo assembler -/

/-- One entry of the info dictionary's `files` list
(`_build_multi_file_info`, torrent.py lines 256-259). -/
structure FileEntry where
  length : Nat
  path : List PyStr
deriving DecidableEq, Repr

/-- Either the `length` key of a single-file info dictionary or the
`files` key of a multi-file one. -/
inductive InfoContent
  | single (length : Nat)
  | multi (files : List FileEntry)
deriving DecidableEq, Repr

/-- The info dictionary built by `_build_single_file_info` /
`_build_multi_file_info`, possibly extended by `create_torrent` with the
`source` and `private` keys (torrent.py lines 87-92).  `sourceTag = none`
and `privateFlag = false` model the keys being absent. -/
structure InfoDict where
  name : PyStr
  content : InfoContent
  pieceLength : Nat
  pieces : Bytes
  sourceTag : Option PyStr
  privateFlag : Bool
deriving DecidableEq, Repr

/-- The metainfo dictionary assembled by `create_torrent` (torrent.py
lines 78-84). -/
structure Metainfo where
  announce : PyStr
  info : InfoDict
  creationDate : Nat
  createdBy : PyStr
  comment : PyStr
deriving DecidableEq, Repr

/-- Embeds `TorrentCreator._build_single_file_info` (torrent.py lines
204-223): the info `name` is `os.path.basename(file_path)`, passed in
as `name`, with no sanitisation. -/
def buildSingleFileInfo (sha1 : Bytes → Bytes) (name : PyStr)
    (content : Bytes) (pieceSize : Nat) : InfoDict :=
  { name := name
    content := .single content.length
    pieceLength := pieceSize
    pieces := calculatePieces sha1 pieceSize content
    sourceTag := none
    privateFlag := false }

/-- Embeds `TorrentCreator._build_multi_file_info` (torrent.py lines
225-272).  `rawBase` is the result of the
`os.path.basename(dir_path)` / trailing-slash fallback (lines 237-239);
`walkFiles` lists the regular files in `os.walk` enumeration order; `t`
is the unix time used by the empty-name fallback (line 243). -/
def buildMultiFileInfo (sha1 : Bytes → Bytes) (t : Nat) (rawBase : PyStr)
    (walkFiles : List WalkedFile) (pieceSize : Nat) : InfoDict :=
  let name := if rawBase = [] ∨ rawBase = ['.'] then albumName t else rawBase
  let sorted := sortByPath walkFiles
  { name := name
    content := .multi (sorted.map fun f => ⟨f.2.length, f.1⟩)
    pieceLength := pieceSize
    pieces := calculatePiecesForFiles sha1 pieceSize (sorted.map Prod.snd)
    sourceTag := none
    privateFlag := false }

/-- The input path handed to `create_torrent`, resolved against the file
system: a regular file (with `os.path.basename`) or a directory (with
the basename produced by lines 96 / 237-239 and the `os.walk`
enumeration). -/
inductive PathInput
  | file (name : PyStr) (content : Bytes)
  | dir (rawBase : PyStr) (walkFiles : List WalkedFile)
deriving DecidableEq, Repr

/-- Sum of all file sizes under the path, as computed by the walk in
`_calculate_piece_size` (torrent.py lines 157-165). -/
def totalSize : PathInput → Nat
  | .file _ c => c.length
  | .dir _ files => (files.map fun f => f.2.length).sum

/-- Embeds `TorrentCreator._build_info_dict` (torrent.py lines 188-202). -/
def buildInfoDict (sha1 : Bytes → Bytes) (t : Nat) (input : PathInput)
    (pieceSize : Nat) : InfoDict :=
  match input with
  | .dir rawBase walkFiles => buildMultiFileInfo sha1 t rawBase walkFiles pieceSize
  | .file name content => buildSingleFileInfo sha1 name content pieceSize

/-- The `base_name` computed for the output file name (torrent.py lines
95-98): the directory basename, or the file basename with its extension
split off. -/
def rawOutputBase : PathInput → PyStr
  | .dir rawBase _ => rawBase
  | .file name _ => splitextRoot name

/-! ## Configuration and `create_torrent` -/

/-- The `torrent` section of the configuration dictionary;
`config.get('torrent', ...)` defaulting to an empty dict is modelled by
every field being `none` when the section is missing. -/
structure TorrentSection where
  announceUrl : Option PyStr
  comment : Option PyStr
  source : Option PyStr
  privateOpt : Option Bool
deriving Repr

/-- The configuration dictionary fields read by `TorrentCreator`. -/
structure Config where
  torrent : TorrentSection
  announceUrl : Option PyStr
  outputDir : Option PyStr
deriving Repr

/-- Python truthiness of an optional string: `None` and `''` are falsy. -/
def pyTruthy : Option PyStr → Bool
  | none => false
  | some s => !s.isEmpty

/-- Python `a or b` on optional strings. -/
def pyOr (a b : Option PyStr) : Option PyStr :=
  if pyTruthy a then a else b

/-- The `self.default_comment` computed in `__init__` (torrent.py line
35). -/
def defaultComment (cfg : Config) : PyStr :=
  cfg.torrent.comment.getD "Created with Music-Upload-Assistant".toList

/-- The `self.default_source` computed in `__init__` (torrent.py line
36). -/
def defaultSource (cfg : Config) : PyStr :=
  cfg.torrent.source.getD "MUA".toList

/-- The `self.default_private` computed in `__init__` (torrent.py line
37). -/
def defaultPrivate (cfg : Config) : Bool :=
  cfg.torrent.privateOpt.getD true

/-- Embeds the body of `create_torrent` (torrent.py lines 39-120) as a
pure function of the configuration, the current unix time `t`, the
resolved input path, and the call arguments.  The success value is the
output file name (written into the output directory) together with the
metainfo value whose bencoding is written to it; an error value models
the corresponding Python exception, with no file written.
`pieceSizeArg = none` covers both `piece_size=None` and
`piece_size='auto'`; `some k` is an explicit size in KiB, multiplied by
1024 (line 70).  The `bencodepy` import is assumed present and the path
is assumed to exist (a `PathInput` is only constructible for an existing
path); the `ImportError` / `FileNotFoundError` guards (lines 43-48) are
otherwise prior to everything modelled here. -/
def createTorrent (sha1 : Bytes → Bytes) (cfg : Config) (t : Nat)
    (input : PathInput) (announceArg sourceArg commentArg createdByArg : Option PyStr)
    (privateArg : Option Bool) (pieceSizeArg : Option Nat) :
    Except PyError (PyStr × Metainfo) :=
  let announceRes := pyOr (pyOr announceArg cfg.torrent.announceUrl) cfg.announceUrl
  if pyTruthy announceRes = false then .error .valueError
  else
    let source := pyOr sourceArg (some (defaultSource cfg))
    let comment := (pyOr commentArg (some (defaultComment cfg))).getD []
    let priv := privateArg.getD (defaultPrivate cfg)
    let createdBy := (pyOr createdByArg (some "Music-Upload-Assistant".toList)).getD []
    let pieceSize :=
      match pieceSizeArg with
      | none => calculatePieceSize (totalSize input)
      | some k => k * 1024
    let info0 := buildInfoDict sha1 t input pieceSize
    let info1 := if pyTruthy source then { info0 with sourceTag := source } else info0
    let info2 := if priv then { info1 with privateFlag := true } else info1
    let m : Metainfo :=
      { announce := announceRes.getD []
        info := info2
        creationDate := t
        createdBy := createdBy
        comment := comment }
    let baseName0 := rawOutputBase input
    let baseName1 := if baseName0 = [] ∨ baseName0 = ['.'] then albumName t else baseName0
    let baseName := sanitizeFilename t baseName1
    .ok (baseName ++ ".torrent".toList, m)

/-! ## Bencode writer

`bencodepy.encode` serialises integers as `i<decimal>e`, byte strings as
`<length>:<bytes>`, lists as `l...e` and dictionaries as `d...e` with the
keys emitted in sorted raw byte order.  The encoder below writes the
fixed dictionary shapes produced by `create_torrent`, with the keys
spelled out in that sorted byte order
(`announce < comment < created by < creation date < info` and
`files/length < name < piece length < pieces < private < source`). -/

/-- Decimal digits of a natural number, as ASCII bytes. -/
def natDecimal (n : Nat) : Bytes := (toString n).toList.map Char.toNat

/-- Python `str.encode()`; for the ASCII strings in scope the code
points coincide with the UTF-8 bytes. -/
def strBytes (s : PyStr) : Bytes := s.map Char.toNat

/-- Bencoded byte string: decimal length, `:` (58), bytes. -/
def bencStr (s : Bytes) : Bytes := natDecimal s.length ++ [58] ++ s

/-- Bencoded nonnegative integer: `i` (105), digits, `e` (101); every
integer in a built metainfo is a length, a unix time, or the literal 1. -/
def bencNat (n : Nat) : Bytes := [105] ++ natDecimal n ++ [101]

/-- A bencoded dictionary key. -/
def bencKey (s : String) : Bytes := bencStr (strBytes s.toList)

/-- Bencoding of one `files` entry: a dictionary with keys
`length < path`, the path a list of byte strings. -/
def fileEntryBytes (f : FileEntry) : Bytes :=
  [100] ++ bencKey "length" ++ bencNat f.length
    ++ bencKey "path"
    ++ ([108] ++ (f.path.map fun c => bencStr (strBytes c)).flatten ++ [101])
    ++ [101]

/-- Bencoding of the info dictionary. -/
def infoBytes (i : InfoDict) : Bytes :=
  [100]
  ++ (match i.content with
      | .multi fs => bencKey "files" ++ ([108] ++ (fs.map fileEntryBytes).flatten ++ [101])
      | .single n => bencKey "length" ++ bencNat n)
  ++ bencKey "name" ++ bencStr (strBytes i.name)
  ++ bencKey "piece length" ++ bencNat i.pieceLength
  ++ bencKey "pieces" ++ bencStr i.pieces
  ++ (if i.privateFlag then bencKey "private" ++ bencNat 1 else [])
  ++ (match i.sourceTag with
      | some s => bencKey "source" ++ bencStr (strBytes s)
      | none => [])
  ++ [101]

/-- The bytes `bencodepy.encode(metainfo)` writes to the `.torrent` file
(torrent.py lines 112-114). -/
def torrentFileBytes (m : Metainfo) : Bytes :=
  [100]
  ++ bencKey "announce" ++ bencStr (strBytes m.announce)
  ++ bencKey "comment" ++ bencStr (strBytes m.comment)
  ++ bencKey "created by" ++ bencStr (strBytes m.createdBy)
  ++ bencKey "creation date" ++ bencNat m.creationDate
  ++ bencKey "info" ++ infoBytes m.info
  ++ [101]

/-! ## Tracker-specific re-targeting -/

/-- Decoded bencode values as returned by `bencodepy.decode`:
dictionary keys are byte strings. -/
inductive BValue
  | int (n : Int)
  | str (s : Bytes)
  | lst (items : List BValue)
  | dict (entries : List (Bytes × BValue))

/-- First-occurrence lookup in a decoded dictionary. -/
def bLookup (k : Bytes) : List (Bytes × BValue) → Option BValue
  | [] => none
  | e :: es => if e.1 = k then some e.2 else bLookup k es

/-- Python `d[k] = v` on a decoded dictionary: replace the value at `k`,
or append the new key. -/
def bSet (k : Bytes) (v : BValue) : List (Bytes × BValue) → List (Bytes × BValue)
  | [] => [(k, v)]
  | e :: es => if e.1 = k then (k, v) :: es else e :: bSet k v es

/-- The `b'announce'` key. -/
def announceKey : Bytes := strBytes "announce".toList

/-- The `b'info'` key. -/
def infoKey : Bytes := strBytes "info".toList

/-- The `b'source'` key. -/
def sourceKey : Bytes := strBytes "source".toList

/-- Embeds `TorrentCreator.create_tracker_specific_torrent` (torrent.py
lines 347-393), applied to the `bencodepy.decode` of the original file:
set `announce`, optionally set `source` inside `info` (only when the
`source` argument is truthy, line 375), and re-serialise.  The function
takes no hash parameter: no content hashing occurs.  `origBasename` is
`os.path.basename(original_torrent_path)`; the success value is the
output file name next to the original together with the updated
metainfo whose bencoding is written to it. -/
def createTrackerSpecificTorrent (origBasename : PyStr) (metainfo : BValue)
    (trackerId announceUrl : PyStr) (sourceArg : Option PyStr) :
    Except PyError (PyStr × BValue) :=
  match metainfo with
  | .dict es =>
    let es1 := bSet announceKey (.str (strBytes announceUrl)) es
    let outName := splitextRoot origBasename ++ "[".toList ++ trackerId
      ++ "]".toList ++ ".torrent".toList
    if pyTruthy sourceArg then
      match bLookup infoKey es1 with
      | some (.dict ies) =>
        .ok (outName,
          .dict (bSet infoKey
            (.dict (bSet sourceKey (.str (strBytes (sourceArg.getD []))) ies)) es1))
      | some _ => .error .typeError
      | none => .error .keyError
    else .ok (outName, .dict es1)
  | _ => .error .typeError

/-! ## Python attribute semantics of the `TorrentCreator` class -/

/-- Attribute names bound on every `TorrentCreator` instance: those set
by `self.<name> = ...` in `__init__` (torrent.py lines 33-37). -/
def torrentCreatorInstanceAttrs : List String :=
  ["config", "torrent_config", "default_comment", "default_source",
   "default_private"]

/-- Attribute names bound on the class: the `def`s at class-body
indentation (torrent.py lines 26, 123, 147, 188, 204, 225, 274, 300,
347).  The `def create_torrent` at line 39 is indented one level
further, inside the body of `__init__`: it is a local function of
`__init__`, discarded when `__init__` returns, and never bound on the
class or on the instance. -/
def torrentCreatorClassAttrs : List String :=
  ["__init__", "_sanitize_filename", "_calculate_piece_size",
   "_build_info_dict", "_build_single_file_info", "_build_multi_file_info",
   "_calculate_pieces", "_calculate_pieces_for_files",
   "create_tracker_specific_torrent"]

/-- Python attribute lookup on a `TorrentCreator` instance: the instance
dictionary, then the class dictionary; a miss raises `AttributeError`. -/
def getAttr (name : String) : Except PyError Unit :=
  if name ∈ torrentCreatorInstanceAttrs then .ok ()
  else if name ∈ torrentCreatorClassAttrs then .ok ()
  else .error .attributeError

/-- A call `instance.<name>(*args)` first evaluates the attribute
`instance.<name>`; when that lookup raises, the call raises the same
`AttributeError` whatever the argument list is.  A successful lookup is
modelled as plain success, which is all C1 needs. -/
def callMethod (name : String) (args : List BValue) : Except PyError Unit :=
  match getAttr name with
  | .ok _ => .ok ()
  | .error e => .error e

/-! ## Concrete instances used by witnesses and counterexamples -/

/-- A concrete stand-in for the abstract SHA-1 digest parameter: any
function returning 20 bytes instantiates the hashing engines. -/
def constDigest : Bytes → Bytes := fun _ => List.replicate 20 0

/-- An empty configuration. -/
def cfgEx : Config :=
  { torrent := { announceUrl := none, comment := none, source := none, privateOpt := none }
    announceUrl := none
    outputDir := none }

/-- The announce URL of a successful build. -/
def announceOf (r : Except PyError (PyStr × Metainfo)) : Option PyStr :=
  match r with
  | .ok (_, m) => some m.announce
  | .error _ => none

/-- The relative paths of the info dictionary's file entries, in order. -/
def infoPaths (i : InfoDict) : List (List PyStr) :=
  match i.content with
  | .multi fs => fs.map FileEntry.path
  | .single _ => []

/-- The full relative path of a multi-file entry, joined with `/` and
taken byte-wise (the spec's comparison key for C7). -/
def joinRelPath : List PyStr → Bytes
  | [] => []
  | [c] => strBytes c
  | c :: c2 :: rest => strBytes c ++ [47] ++ joinRelPath (c2 :: rest)

/-- Byte-wise lexicographic comparison of byte strings (the spec's
order for C7). -/
def bytesLt : Bytes → Bytes → Bool
  | [], [] => false
  | [], _ :: _ => true
  | _ :: _, [] => false
  | a :: as, b :: bs =>
    if a < b then true
    else if b < a then false
    else bytesLt as bs

/-- Helper for the spec-side whitespace collapse: `prevWs` records
whether the previously kept character was whitespace. -/
def collapseWsAux : Bool → PyStr → PyStr
  | _, [] => []
  | prevWs, c :: rest =>
    if c.isWhitespace then
      if prevWs then collapseWsAux true rest
      else ' ' :: collapseWsAux true rest
    else c :: collapseWsAux false rest

/-- Spec-side whitespace collapsing: each run of whitespace becomes a
single space. -/
def collapseWs (s : PyStr) : PyStr := collapseWsAux false s

/-- Spec-side sanitisation for C8, following the claim's words: the
illegal characters are stripped (removed), whitespace is collapsed, and
an empty result falls back to the timestamp-derived name. -/
def specSanitize (t : Nat) (s : PyStr) : PyStr :=
  let fn := s.filter fun c => !invalidChars.contains c
  let fn := collapseWs fn
  if fn = [] then albumName t else fn

/-- The decoded info dictionary of the concrete witness torrent. -/
def iesW : List (Bytes × BValue) :=
  [(strBytes "pieces".toList, .str [1, 2, 3])]

/-- The decoded metainfo dictionary of the concrete witness torrent. -/
def esW : List (Bytes × BValue) :=
  [(announceKey, .str (strBytes "http://old".toList)), (infoKey, .dict iesW)]

/-! ## Proof development

Everything below is theorems; the lemmas on `chunkSplit` relate both
hashing loops to the contiguous chunking of the virtual byte stream. -/

theorem chunkSplit_snd_lt (p : Nat) (hp : 0 < p) (l : Bytes) :
    (chunkSplit p l).2.length < p := by
  rw [chunkSplit]
  split
  · rename_i h
    rcases h with h | h
    · simpa using h
    · omega
  · exact chunkSplit_snd_lt p hp (l.drop p)
termination_by l.length
decreasing_by
  rename_i h
  push_neg at h
  simp only [List.length_drop]
  omega

theorem chunkSplit_fst_length (p : Nat) (hp : 0 < p) (l : Bytes) :
    (chunkSplit p l).1.length = l.length / p := by
  rw [chunkSplit]
  split
  · rename_i h
    rcases h with h | h
    · simp [Nat.div_eq_of_lt h]
    · omega
  · rename_i h
    push_neg at h
    have hle : p ≤ l.length := h.1
    simp only [List.length_cons, chunkSplit_fst_length p hp (l.drop p),
      List.length_drop]
    rw [Nat.div_eq_sub_div hp hle]
termination_by l.length
decreasing_by
  rename_i h
  push_neg at h
  simp only [List.length_drop]
  omega

theorem chunkSplit_snd_length (p : Nat) (hp : 0 < p) (l : Bytes) :
    (chunkSplit p l).2.length = l.length % p := by
  rw [chunkSplit]
  split
  · rename_i h
    rcases h with h | h
    · simp [Nat.mod_eq_of_lt h]
    · omega
  · rename_i h
    push_neg at h
    have hle : p ≤ l.length := h.1
    simp only [chunkSplit_snd_length p hp (l.drop p), List.length_drop]
    rw [Nat.mod_eq_sub_mod hle]
termination_by l.length
decreasing_by
  rename_i h
  push_neg at h
  simp only [List.length_drop]
  omega

/-- The per-file loop of `_calculate_pieces_for_files` computes exactly
the contiguous chunking of the buffer followed by the file's bytes. -/
theorem feedFile_eq_chunkSplit (p : Nat) (hp : 0 < p) (buf file : Bytes)
    (hb : buf.length < p) :
    feedFile p buf file = chunkSplit p (buf ++ file) := by
  rw [feedFile]
  split
  · rename_i hf
    subst hf
    rw [chunkSplit]
    simp only [List.append_nil]
    rw [dif_pos (Or.inl hb)]
  · rename_i hf
    simp only []
    split
    · rename_i hn
      omega
    · rename_i hn
      split
      · rename_i hfull
        have hflen : p - buf.length ≤ file.length := by
          simp only [List.length_append, List.length_take] at hfull
          omega
        rw [chunkSplit]
        have hlen : ¬((buf ++ file).length < p ∨ p = 0) := by
          simp only [List.length_append]
          omega
        rw [dif_neg hlen]
        have htake : (buf ++ file).take p = buf ++ file.take (p - buf.length) := by
          rw [List.take_append_eq_append_take]
          congr 1
          exact List.take_of_length_le (by omega)
        have hdrop : (buf ++ file).drop p = file.drop (p - buf.length) := by
          rw [List.drop_append_eq_append_drop]
          rw [List.drop_of_length_le (by omega), List.nil_append]
        rw [feedFile_eq_chunkSplit p hp [] (file.drop (p - buf.length)) hp]
        simp only [List.nil_append, htake, hdrop]
      · rename_i hfull
        have hflen : file.length < p - buf.length := by
          by_contra hge
          push_neg at hge
          apply hfull
          simp only [List.length_append, List.length_take]
          omega
        have hdrop : file.drop (p - buf.length) = [] :=
          List.drop_of_length_le (by omega)
        rw [hdrop]
        rw [feedFile]
        rw [dif_pos rfl]
        rw [chunkSplit]
        have hlt : (buf ++ file).length < p ∨ p = 0 := by
          left
          simp only [List.length_append]
          omega
        rw [dif_pos hlt]
        have : file.take (p - buf.length) = file :=
          List.take_of_length_le (by omega)
        rw [this]
termination_by file.length
decreasing_by
  all_goals simp only [List.length_drop]
  all_goals omega

/-- Chunking a concatenation: chunk the first part, then continue from its
remainder into the second part. -/
theorem chunkSplit_append (p : Nat) (hp : 0 < p) (a b : Bytes) :
    chunkSplit p (a ++ b) =
      ((chunkSplit p a).1 ++ (chunkSplit p ((chunkSplit p a).2 ++ b)).1,
       (chunkSplit p ((chunkSplit p a).2 ++ b)).2) := by
  by_cases ha : a.length < p
  · have h0 : chunkSplit p a = ([], a) := by
      rw [chunkSplit]
      rw [dif_pos (Or.inl ha)]
    rw [h0]
    simp
  · push_neg at ha
    have h1 : ¬((a ++ b).length < p ∨ p = 0) := by
      simp only [List.length_append]
      omega
    have h2 : ¬(a.length < p ∨ p = 0) := by omega
    rw [chunkSplit, dif_neg h1]
    conv_rhs => rw [chunkSplit, dif_neg h2]
    have htake : (a ++ b).take p = a.take p :=
      List.take_append_of_le_length ha
    have hdrop : (a ++ b).drop p = a.drop p ++ b :=
      List.drop_append_of_le_length ha
    simp only [htake, hdrop]
    rw [chunkSplit_append p hp (a.drop p) b]
    simp
termination_by a.length
decreasing_by
  simp only [List.length_drop]
  omega

/-- The fold of the multi-file loop over any list of files, started from
any buffer state, computes the contiguous chunking of the buffer followed
by the concatenation of the files. -/
theorem foldl_feedFile_eq (p : Nat) (hp : 0 < p) (files : List Bytes) :
    ∀ (cs : List Bytes) (buf : Bytes), buf.length < p →
      files.foldl
        (fun acc f =>
          let r := feedFile p acc.2 f
          (acc.1 ++ r.1, r.2))
        (cs, buf) =
      (cs ++ (chunkSplit p (buf ++ files.flatten)).1,
       (chunkSplit p (buf ++ files.flatten)).2) := by
  induction files with
  | nil =>
    intro cs buf hb
    have h0 : chunkSplit p buf = ([], buf) := by
      rw [chunkSplit]
      rw [dif_pos (Or.inl hb)]
    simp [h0]
  | cons f fs ih =>
    intro cs buf hb
    simp only [List.foldl_cons, List.flatten_cons]
    rw [feedFile_eq_chunkSplit p hp buf f hb]
    rw [ih (cs ++ (chunkSplit p (buf ++ f)).1) (chunkSplit p (buf ++ f)).2
      (chunkSplit_snd_lt p hp (buf ++ f))]
    rw [show buf ++ (f ++ fs.flatten) = (buf ++ f) ++ fs.flatten by simp]
    rw [chunkSplit_append p hp (buf ++ f) fs.flatten]
    simp

/-- The multi-file loop's chunk stream over the whole file list is the
contiguous chunking of the virtual concatenation. -/
theorem multiFileChunks_eq_chunkSplit (p : Nat) (hp : 0 < p) (files : List Bytes) :
    multiFileChunks p files = chunkSplit p files.flatten := by
  rw [multiFileChunks, foldl_feedFile_eq p hp files [] [] hp]
  simp

/-- The single-file read loop produces the complete chunks followed by
the non-empty remainder, if any. -/
theorem readChunks_eq_chunkSplit (p : Nat) (hp : 0 < p) (l : Bytes) :
    readChunks p l =
      (chunkSplit p l).1 ++
        (if (chunkSplit p l).2 = [] then [] else [(chunkSplit p l).2]) := by
  by_cases hl : l = []
  · subst hl
    rw [readChunks, dif_pos (Or.inr rfl), chunkSplit,
      dif_pos (Or.inl (by simpa using hp))]
    simp
  · by_cases hsmall : l.length < p
    · rw [readChunks, dif_neg (by push_neg; exact ⟨by omega, hl⟩)]
      rw [chunkSplit, dif_pos (Or.inl hsmall)]
      have ht : l.take p = l := List.take_of_length_le (by omega)
      have hd : l.drop p = [] := List.drop_of_length_le (by omega)
      rw [ht, hd, readChunks]
      simp [hl]
    · push_neg at hsmall
      rw [readChunks, dif_neg (by push_neg; exact ⟨by omega, hl⟩)]
      rw [chunkSplit, dif_neg (by push_neg; exact ⟨by omega, by omega⟩)]
      simp only []
      rw [readChunks_eq_chunkSplit p hp (l.drop p)]
      simp
termination_by l.length
decreasing_by
  simp only [List.length_drop]
  have : l.length ≠ 0 := fun hz => hl (List.length_eq_zero.mp hz)
  omega

/-- Concatenating 20-byte digests of a chunk list yields `20 * count`
bytes. -/
theorem flatten_map_digest_length (sha1 : Bytes → Bytes)
    (hdig : ∀ b, (sha1 b).length = 20) (cs : List Bytes) :
    ((cs.map sha1).flatten).length = 20 * cs.length := by
  induction cs with
  | nil => simp
  | cons c cs ih =>
    simp only [List.map_cons, List.flatten_cons, List.length_append, hdig, ih,
      List.length_cons]
    omega

/-- Ceiling division written as full pieces plus one short piece. -/
theorem div_add_indicator_eq_ceil (p n : Nat) (hp : 0 < p) :
    n / p + (if n % p = 0 then 0 else 1) = (n + p - 1) / p := by
  have hr : n % p < p := Nat.mod_lt _ hp
  by_cases h : n % p = 0
  · rw [h, if_pos rfl]
    have he : n + p - 1 = p * (n / p) + (p - 1) := by
      have := Nat.div_add_mod n p
      omega
    rw [he, Nat.mul_add_div hp]
    rw [Nat.div_eq_of_lt (show p - 1 < p by omega)]
  · rw [if_neg h]
    have he : n + p - 1 = p * (n / p) + (n % p + p - 1) := by
      have := Nat.div_add_mod n p
      omega
    rw [he, Nat.mul_add_div hp]
    have h1 : (n % p + p - 1) / p = 1 :=
      Nat.div_eq_of_lt_le (by omega) (by omega)
    omega

/-- The single-file hashing loop emits exactly `ceil(size / pieceSize)`
20-byte digests. -/
theorem calculatePieces_length (sha1 : Bytes → Bytes) (p : Nat) (hp : 0 < p)
    (hdig : ∀ b, (sha1 b).length = 20) (data : Bytes) :
    (calculatePieces sha1 p data).length = 20 * ((data.length + p - 1) / p) := by
  rw [calculatePieces, readChunks_eq_chunkSplit p hp]
  rw [List.map_append, List.flatten_append, List.length_append,
    flatten_map_digest_length sha1 hdig, flatten_map_digest_length sha1 hdig]
  have h1 := chunkSplit_fst_length p hp data
  have h2 := chunkSplit_snd_length p hp data
  have hind :
      (if (chunkSplit p data).2 = [] then ([] : List Bytes)
        else [(chunkSplit p data).2]).length =
        if data.length % p = 0 then 0 else 1 := by
    by_cases hrem : (chunkSplit p data).2 = []
    · rw [if_pos hrem]
      rw [hrem] at h2
      simp at h2
      rw [if_pos h2.symm]
      rfl
    · rw [if_neg hrem]
      have : (chunkSplit p data).2.length ≠ 0 :=
        fun hz => hrem (List.length_eq_zero.mp hz)
      rw [if_neg (by omega)]
      rfl
  rw [hind, h1]
  have := div_add_indicator_eq_ceil p data.length hp
  omega

/-- The multi-file hashing loop computes exactly what the single-file
loop computes on the virtual concatenation (C4's content, as a reusable
lemma). -/
theorem calculatePiecesForFiles_eq (sha1 : Bytes → Bytes) (p : Nat)
    (hp : 0 < p) (files : List Bytes) :
    calculatePiecesForFiles sha1 p files = calculatePieces sha1 p files.flatten := by
  simp only [calculatePiecesForFiles, calculatePieces]
  rw [multiFileChunks_eq_chunkSplit p hp, readChunks_eq_chunkSplit p hp]
  rw [List.map_append, List.flatten_append]
  congr 1
  by_cases hrem : (chunkSplit p files.flatten).2 = []
  · simp [hrem]
  · simp [hrem]

/-! ## Claims -/

/-- C1: for every argument list, invoking `create_torrent` on a
`TorrentCreator` instance raises `AttributeError`: the `def` at
torrent.py line 39 is indented inside `__init__`, so it is a local
function discarded when `__init__` returns and is never bound as a
method; the builder's public entry point is unreachable from callers
such as `process_file` (music_upload_assistant.py lines 287-297).  The
sibling `create_tracker_specific_torrent`, defined at class level, does
resolve. -/
theorem c1_create_torrent_unreachable :
    (∀ args : List BValue,
        callMethod "create_torrent" args = .error .attributeError)
    ∧ getAttr "create_torrent" = .error .attributeError
    ∧ getAttr "create_tracker_specific_torrent" = .ok () :=
  ⟨fun _ => rfl, rfl, rfl⟩

/-- C3: for every input with positive total content size and every
positive piece size, both hashing engines produce a `pieces` string of
length exactly `20 * ceil(total / pieceSize)` (written with natural
ceiling division `(total + p - 1) / p`), regardless of how many files
contributed bytes — zero-byte files in the list contribute nothing to
the stream. -/
theorem c3_piece_count_invariant (sha1 : Bytes → Bytes) (p : Nat)
    (hp : 0 < p) (hdig : ∀ b, (sha1 b).length = 20) :
    (∀ data : Bytes, 0 < data.length →
        (calculatePieces sha1 p data).length = 20 * ((data.length + p - 1) / p))
    ∧ ∀ files : List Bytes, 0 < files.flatten.length →
        (calculatePiecesForFiles sha1 p files).length =
          20 * ((files.flatten.length + p - 1) / p) := by
  refine ⟨fun data _ => calculatePieces_length sha1 p hp hdig data, fun files _ => ?_⟩
  rw [calculatePiecesForFiles_eq sha1 p hp files]
  exact calculatePieces_length sha1 p hp hdig _

/-- Witness for C3 at piece size 2, a single file `[3, 1, 4]` and the
file list `[[3, 1], [], [4]]` (the middle file is zero-byte). -/
theorem c3_piece_count_invariant_witness :
    0 < 2 ∧ (∀ b : Bytes, (constDigest b).length = 20)
    ∧ 0 < ([3, 1, 4] : Bytes).length
    ∧ (calculatePieces constDigest 2 [3, 1, 4]).length =
        20 * ((([3, 1, 4] : Bytes).length + 2 - 1) / 2)
    ∧ 0 < ([[3, 1], [], [4]] : List Bytes).flatten.length
    ∧ (calculatePiecesForFiles constDigest 2 [[3, 1], [], [4]]).length =
        20 * ((([[3, 1], [], [4]] : List Bytes).flatten.length + 2 - 1) / 2) := by
  refine ⟨by decide, fun b => by simp [constDigest], by decide, ?_, by decide, ?_⟩
  · exact (c3_piece_count_invariant constDigest 2 (by decide)
      (fun b => by simp [constDigest])).1 [3, 1, 4] (by decide)
  · exact (c3_piece_count_invariant constDigest 2 (by decide)
      (fun b => by simp [constDigest])).2 [[3, 1], [], [4]] (by decide)

/-- C4: for a multi-file input with at least two files and a piece size
smaller than some individual file's size, the multi-file engine's
concatenated piece hashes equal those of hashing the single virtual
concatenation of the files' bytes (in the order the engine receives
them, i.e. sorted order) as one stream: pieces are finalised across
file boundaries, with one trailing short piece when bytes remain. -/
theorem c4_cross_boundary_hashing (sha1 : Bytes → Bytes) (p : Nat)
    (files : List Bytes) (hp : 0 < p) (hn : 2 ≤ files.length)
    (hsmall : ∃ f ∈ files, p < f.length) :
    calculatePiecesForFiles sha1 p files = calculatePieces sha1 p files.flatten :=
  calculatePiecesForFiles_eq sha1 p hp files

/-- Witness for C4 at piece size 2 and files `[[1, 2, 3], [4]]` (the
first file is larger than the piece size, and the second piece `[3, 4]`
spans the file boundary). -/
theorem c4_cross_boundary_hashing_witness :
    0 < 2 ∧ 2 ≤ ([[1, 2, 3], [4]] : List Bytes).length
    ∧ (∃ f ∈ ([[1, 2, 3], [4]] : List Bytes), 2 < f.length)
    ∧ calculatePiecesForFiles constDigest 2 [[1, 2, 3], [4]] =
        calculatePieces constDigest 2 ([[1, 2, 3], [4]] : List Bytes).flatten :=
  ⟨by decide, by decide, by decide,
    c4_cross_boundary_hashing constDigest 2 [[1, 2, 3], [4]]
      (by decide) (by decide) (by decide)⟩

set_option maxHeartbeats 1600000 in
/-- C6: the auto piece-size policy returns exactly the tier table of
spec section 4.1, with exact boundaries (49 MiB yields 16 KiB, 50 MiB
yields 32 KiB), and every returned value is a power-of-two multiple of
1 KiB. -/
theorem c6_piece_size_policy (s : Nat) :
    (s < 50 * 1024 * 1024 → calculatePieceSize s = 16 * 1024)
    ∧ (50 * 1024 * 1024 ≤ s → s < 150 * 1024 * 1024 →
        calculatePieceSize s = 32 * 1024)
    ∧ (150 * 1024 * 1024 ≤ s → s < 350 * 1024 * 1024 →
        calculatePieceSize s = 64 * 1024)
    ∧ (350 * 1024 * 1024 ≤ s → s < 512 * 1024 * 1024 →
        calculatePieceSize s = 128 * 1024)
    ∧ (512 * 1024 * 1024 ≤ s → s < 1024 * 1024 * 1024 →
        calculatePieceSize s = 256 * 1024)
    ∧ (1024 * 1024 * 1024 ≤ s → s < 2 * 1024 * 1024 * 1024 →
        calculatePieceSize s = 512 * 1024)
    ∧ (2 * 1024 * 1024 * 1024 ≤ s → s < 4 * 1024 * 1024 * 1024 →
        calculatePieceSize s = 1024 * 1024)
    ∧ (4 * 1024 * 1024 * 1024 ≤ s → s < 8 * 1024 * 1024 * 1024 →
        calculatePieceSize s = 2 * 1024 * 1024)
    ∧ (8 * 1024 * 1024 * 1024 ≤ s → calculatePieceSize s = 4 * 1024 * 1024)
    ∧ calculatePieceSize (49 * 1024 * 1024) = 16 * 1024
    ∧ calculatePieceSize (50 * 1024 * 1024) = 32 * 1024
    ∧ ∃ k, calculatePieceSize s = 2 ^ k * 1024 := by
  refine ⟨?_, ?_, ?_, ?_, ?_, ?_, ?_, ?_, ?_,
    by norm_num [calculatePieceSize], by norm_num [calculatePieceSize], ?_⟩
  all_goals try (intros; simp only [calculatePieceSize]; split_ifs <;> omega)
  simp only [calculatePieceSize]
  split_ifs
  exacts [⟨4, by norm_num⟩, ⟨5, by norm_num⟩, ⟨6, by norm_num⟩, ⟨7, by norm_num⟩,
    ⟨8, by norm_num⟩, ⟨9, by norm_num⟩, ⟨10, by norm_num⟩, ⟨11, by norm_num⟩,
    ⟨12, by norm_num⟩]

/-- Witness for C6 at total size 0 (first tier). -/
theorem c6_piece_size_policy_witness :
    0 < 50 * 1024 * 1024 ∧ calculatePieceSize 0 = 16 * 1024 :=
  ⟨by norm_num, (c6_piece_size_policy 0).1 (by norm_num)⟩

/-- C10: the announce URL is resolved in the order explicit caller
override, then the torrent-section config, then the global config
fallback (torrent.py lines 52-56); when all three are absent or empty
the build fails with `ValueError` (line 58) — for every hash function
and every input, i.e. without touching any file content, hence before
any hashing work, and with no output value produced. -/
theorem c10_announce_resolution (sha1 : Bytes → Bytes) (cfg : Config)
    (t : Nat) (input : PathInput)
    (announceArg sourceArg commentArg createdByArg : Option PyStr)
    (privateArg : Option Bool) (pieceSizeArg : Option Nat) :
    (pyTruthy announceArg = true →
      announceOf (createTorrent sha1 cfg t input announceArg sourceArg
        commentArg createdByArg privateArg pieceSizeArg) = announceArg)
    ∧ (pyTruthy announceArg = false → pyTruthy cfg.torrent.announceUrl = true →
      announceOf (createTorrent sha1 cfg t input announceArg sourceArg
        commentArg createdByArg privateArg pieceSizeArg) = cfg.torrent.announceUrl)
    ∧ (pyTruthy announceArg = false → pyTruthy cfg.torrent.announceUrl = false →
        pyTruthy cfg.announceUrl = true →
      announceOf (createTorrent sha1 cfg t input announceArg sourceArg
        commentArg createdByArg privateArg pieceSizeArg) = cfg.announceUrl)
    ∧ (pyTruthy announceArg = false → pyTruthy cfg.torrent.announceUrl = false →
        pyTruthy cfg.announceUrl = false →
      createTorrent sha1 cfg t input announceArg sourceArg commentArg
        createdByArg privateArg pieceSizeArg = .error .valueError) := by
  refine ⟨?_, ?_, ?_, ?_⟩
  · intro h1
    cases announceArg with
    | none => simp [pyTruthy] at h1
    | some s => simp [createTorrent, pyOr, h1, announceOf]
  · intro h1 h2
    cases hc : cfg.torrent.announceUrl with
    | none => rw [hc] at h2; simp [pyTruthy] at h2
    | some s =>
      rw [hc] at h2
      simp [createTorrent, pyOr, h1, h2, hc, announceOf]
  · intro h1 h2 h3
    cases hc : cfg.announceUrl with
    | none => rw [hc] at h3; simp [pyTruthy] at h3
    | some s =>
      rw [hc] at h3
      simp [createTorrent, pyOr, h1, h2, h3, hc, announceOf]
  · intro h1 h2 h3
    simp [createTorrent, pyOr, h1, h2, h3]

/-- Witness for C10: an explicit caller override resolves to itself. -/
theorem c10_announce_resolution_witness :
    pyTruthy (some "http://t/a".toList) = true
    ∧ announceOf (createTorrent constDigest cfgEx 0 (.file "f.flac".toList [])
        (some "http://t/a".toList) none none none none none) =
      some "http://t/a".toList :=
  ⟨by decide,
    (c10_announce_resolution constDigest cfgEx 0 (.file "f.flac".toList [])
      (some "http://t/a".toList) none none none none none).1 (by decide)⟩

/-- C2 counterexample: on a directory containing zero regular files the
build does not fail with any error: at this concrete input it returns
successfully, writing `Album.torrent` whose info dictionary has an
empty `files` list and empty `pieces`.  This refutes the claim that an
empty directory yields an `InputError` with no file written. -/
theorem c2_empty_dir_counterexample :
    createTorrent constDigest cfgEx 5 (.dir "Album".toList [])
        (some "http://t/ann".toList) none none none none none =
      .ok ("Album.torrent".toList,
        { announce := "http://t/ann".toList
          info :=
            { name := "Album".toList
              content := .multi []
              pieceLength := 16384
              pieces := []
              sourceTag := some "MUA".toList
              privateFlag := true }
          creationDate := 5
          createdBy := "Music-Upload-Assistant".toList
          comment := "Created with Music-Upload-Assistant".toList }) := by
  rfl

/-- C2 corrected: for every configuration and argument set whose
announce URL resolves, the build on a directory with zero regular files
succeeds (no `InputError` exists in the module), producing a `.torrent`
whose info dictionary has `files = []` and empty `pieces`. -/
theorem c2_empty_dir_amended (sha1 : Bytes → Bytes) (cfg : Config) (t : Nat)
    (rawBase : PyStr)
    (announceArg sourceArg commentArg createdByArg : Option PyStr)
    (privateArg : Option Bool) (pieceSizeArg : Option Nat)
    (hann : pyTruthy (pyOr (pyOr announceArg cfg.torrent.announceUrl)
      cfg.announceUrl) = true) :
    ∃ out m, createTorrent sha1 cfg t (.dir rawBase []) announceArg sourceArg
        commentArg createdByArg privateArg pieceSizeArg = .ok (out, m)
      ∧ m.info.content = .multi [] ∧ m.info.pieces = [] := by
  have hnil : ∀ p, calculatePiecesForFiles sha1 p [] = [] := fun _ => rfl
  simp only [createTorrent]
  rw [if_neg (by simp [hann])]
  refine ⟨_, _, rfl, ?_, ?_⟩
  · simp only [buildInfoDict, buildMultiFileInfo, sortByPath]
    split_ifs <;> rfl
  · simp only [buildInfoDict, buildMultiFileInfo, sortByPath]
    split_ifs <;> exact hnil _

/-- Witness for C2's corrected statement at a concrete configuration. -/
theorem c2_empty_dir_amended_witness :
    pyTruthy (pyOr (pyOr (some "http://t/b".toList) cfgEx.torrent.announceUrl)
        cfgEx.announceUrl) = true
    ∧ ∃ out m, createTorrent constDigest cfgEx 9 (.dir "B".toList [])
          (some "http://t/b".toList) none none none none none = .ok (out, m)
        ∧ m.info.content = .multi [] ∧ m.info.pieces = [] :=
  ⟨by decide,
    c2_empty_dir_amended constDigest cfgEx 9 "B".toList
      (some "http://t/b".toList) none none none none none (by decide)⟩

/-- C5 counterexample: the same input built with the same parameters at
two different clock readings (`t = 0` and `t = 1`) yields different
file bytes, because `create_torrent` stores `int(time.time())` as
`creation date` (torrent.py line 81).  The two `.torrent` files are
therefore not byte-identical, refuting the claim as stated. -/
theorem c5_determinism_counterexample :
    (createTorrent constDigest cfgEx 0 (.file "a.flac".toList [])
        (some "http://t/ann".toList) none none none none none).map
        (fun r => torrentFileBytes r.2)
      ≠ (createTorrent constDigest cfgEx 1 (.file "a.flac".toList [])
        (some "http://t/ann".toList) none none none none none).map
        (fun r => torrentFileBytes r.2) := by
  have hpieces : calculatePieces constDigest 16384 ([] : Bytes) = [] := by
    rw [calculatePieces, readChunks, dif_pos (Or.inr rfl)]
    rfl
  show Except.ok (torrentFileBytes
      { announce := "http://t/ann".toList
        info :=
          { name := "a.flac".toList
            content := .single 0
            pieceLength := 16384
            pieces := calculatePieces constDigest 16384 []
            sourceTag := some "MUA".toList
            privateFlag := true }
        creationDate := 0
        createdBy := "Music-Upload-Assistant".toList
        comment := "Created with Music-Upload-Assistant".toList })
    ≠ Except.ok (torrentFileBytes
      { announce := "http://t/ann".toList
        info :=
          { name := "a.flac".toList
            content := .single 0
            pieceLength := 16384
            pieces := calculatePieces constDigest 16384 []
            sourceTag := some "MUA".toList
            privateFlag := true }
        creationDate := 1
        createdBy := "Music-Upload-Assistant".toList
        comment := "Created with Music-Upload-Assistant".toList })
  rw [hpieces]
  intro hEq
  exact absurd (Except.ok.inj hEq) (by decide)

/-- C5 corrected: two builds of the same input with the same parameters
agree on the output file name and on every metainfo field except
`creation date`; in particular the info dictionaries — and hence their
bencodings and the info-hash — are byte-identical.  Requires that the
announce URL resolves and that no name falls back to the
timestamp-derived default. -/
theorem c5_determinism_amended (sha1 : Bytes → Bytes) (cfg : Config)
    (input : PathInput)
    (announceArg sourceArg commentArg createdByArg : Option PyStr)
    (privateArg : Option Bool) (pieceSizeArg : Option Nat) (t₁ t₂ : Nat)
    (hann : pyTruthy (pyOr (pyOr announceArg cfg.torrent.announceUrl)
      cfg.announceUrl) = true)
    (hb1 : rawOutputBase input ≠ []) (hb2 : rawOutputBase input ≠ ['.'])
    (hb3 : stripDotsSpaces (replaceInvalid (rawOutputBase input)) ≠ [])
    (hd : ∀ rawBase walkFiles, input = .dir rawBase walkFiles →
      rawBase ≠ [] ∧ rawBase ≠ ['.']) :
    ∃ out m₁ m₂,
      createTorrent sha1 cfg t₁ input announceArg sourceArg commentArg
        createdByArg privateArg pieceSizeArg = .ok (out, m₁)
      ∧ createTorrent sha1 cfg t₂ input announceArg sourceArg commentArg
          createdByArg privateArg pieceSizeArg = .ok (out, m₂)
      ∧ m₂ = { m₁ with creationDate := t₂ }
      ∧ m₁.info = m₂.info
      ∧ infoBytes m₁.info = infoBytes m₂.info := by
  have hcond : ¬ (pyTruthy (pyOr (pyOr announceArg cfg.torrent.announceUrl)
      cfg.announceUrl) = false) := by simp [hann]
  have hinfo : ∀ (t : Nat) (p : Nat),
      buildInfoDict sha1 t input p = buildInfoDict sha1 t₁ input p := by
    intro t p
    cases input with
    | file name content => rfl
    | dir rawBase walkFiles =>
      obtain ⟨hr1, hr2⟩ := hd rawBase walkFiles rfl
      simp only [buildInfoDict, buildMultiFileInfo]
      rw [if_neg (by rintro (h | h); exacts [hr1 h, hr2 h]),
        if_neg (by rintro (h | h); exacts [hr1 h, hr2 h])]
  have hname : ∀ t : Nat,
      sanitizeFilename t
        (if rawOutputBase input = [] ∨ rawOutputBase input = ['.']
          then albumName t else rawOutputBase input) =
      stripDotsSpaces (replaceInvalid (rawOutputBase input)) := by
    intro t
    rw [if_neg (by rintro (h | h); exacts [hb1 h, hb2 h])]
    simp only [sanitizeFilename]
    rw [if_neg hb3]
  simp only [createTorrent]
  rw [if_neg hcond, if_neg hcond, hname t₁, hname t₂, hinfo t₂]
  exact ⟨_, _, _, rfl, rfl, rfl, rfl, rfl⟩

/-- Witness for C5's corrected statement on a one-byte single file. -/
theorem c5_determinism_amended_witness :
    pyTruthy (pyOr (pyOr (some "http://t/c".toList) cfgEx.torrent.announceUrl)
        cfgEx.announceUrl) = true
    ∧ rawOutputBase (.file "b.flac".toList [7]) ≠ []
    ∧ rawOutputBase (.file "b.flac".toList [7]) ≠ ['.']
    ∧ stripDotsSpaces (replaceInvalid (rawOutputBase (.file "b.flac".toList [7]))) ≠ []
    ∧ ∃ out m₁ m₂,
        createTorrent constDigest cfgEx 3 (.file "b.flac".toList [7])
          (some "http://t/c".toList) none none none none none = .ok (out, m₁)
        ∧ createTorrent constDigest cfgEx 4 (.file "b.flac".toList [7])
            (some "http://t/c".toList) none none none none none = .ok (out, m₂)
        ∧ m₂ = { m₁ with creationDate := 4 }
        ∧ m₁.info = m₂.info
        ∧ infoBytes m₁.info = infoBytes m₂.info :=
  ⟨by decide, by decide, by decide, by decide,
    c5_determinism_amended constDigest cfgEx (.file "b.flac".toList [7])
      (some "http://t/c".toList) none none none none none 3 4
      (by decide) (by decide) (by decide) (by decide)
      (fun rawBase walkFiles h => by cases h)⟩

/-! ## Order lemmas for the path sort -/

theorem strLt_asymm : ∀ a b : PyStr, strLt a b = true → strLt b a = false
  | [], [] => by simp [strLt]
  | [], _ :: _ => fun _ => rfl
  | _ :: _, [] => by simp [strLt]
  | c :: cs, d :: ds => by
    simp only [strLt]
    by_cases h1 : c < d
    · intro _
      rw [if_neg (lt_asymm h1), if_pos h1]
    · by_cases h2 : d < c
      · intro h
        rw [if_neg h1, if_pos h2] at h
        exact absurd h (by simp)
      · intro h
        rw [if_neg h1, if_neg h2] at h
        rw [if_neg h2, if_neg h1]
        exact strLt_asymm cs ds h

theorem strLt_conn : ∀ a b : PyStr, strLt a b = false → strLt b a = false → a = b
  | [], [] => fun _ _ => rfl
  | [], _ :: _ => by simp [strLt]
  | _ :: _, [] => by simp [strLt]
  | c :: cs, d :: ds => by
    simp only [strLt]
    by_cases h1 : c < d
    · intro h _
      rw [if_pos h1] at h
      exact absurd h (by simp)
    · by_cases h2 : d < c
      · intro _ h
        rw [if_pos h2] at h
        exact absurd h (by simp)
      · intro h h'
        rw [if_neg h1, if_neg h2] at h
        rw [if_neg h2, if_neg h1] at h'
        have hcd : c = d := le_antisymm (le_of_not_lt h2) (le_of_not_lt h1)
        rw [hcd, strLt_conn cs ds h h']

theorem strLt_trans : ∀ a b c : PyStr,
    strLt a b = true → strLt b c = true → strLt a c = true
  | [], b, [] => by
    intro _ h
    cases b with
    | nil => simp [strLt] at h
    | cons y ys => simp [strLt] at h
  | [], _, _ :: _ => fun _ _ => rfl
  | _ :: _, [], _ => by simp [strLt]
  | x :: xs, y :: ys, [] => by intro _ h; simp [strLt] at h
  | x :: xs, y :: ys, z :: zs => by
    intro h1 h2
    simp only [strLt] at h1 h2 ⊢
    by_cases hxy : x < y
    · by_cases hyz : y < z
      · rw [if_pos (lt_trans hxy hyz)]
      · by_cases hzy : z < y
        · rw [if_neg hyz, if_pos hzy] at h2
          exact absurd h2 (by simp)
        · have hy : y = z := le_antisymm (le_of_not_lt hzy) (le_of_not_lt hyz)
          rw [← hy, if_pos hxy]
    · by_cases hyx : y < x
      · rw [if_neg hxy, if_pos hyx] at h1
        exact absurd h1 (by simp)
      · have hx : x = y := le_antisymm (le_of_not_lt hyx) (le_of_not_lt hxy)
        subst hx
        rw [if_neg hxy, if_neg hyx] at h1
        by_cases hxz : x < z
        · rw [if_pos hxz]
        · by_cases hzx : z < x
          · rw [if_neg hxz, if_pos hzx] at h2
            exact absurd h2 (by simp)
          · rw [if_neg hxz, if_neg hzx] at h2 ⊢
            exact strLt_trans xs ys zs h1 h2

theorem pathLt_asymm : ∀ a b : List PyStr, pathLt a b = true → pathLt b a = false
  | [], [] => by simp [pathLt]
  | [], _ :: _ => fun _ => rfl
  | _ :: _, [] => by simp [pathLt]
  | c :: cs, d :: ds => by
    simp only [pathLt]
    by_cases h1 : strLt c d = true
    · intro _
      rw [if_neg (by simp [strLt_asymm c d h1]), if_pos h1]
    · by_cases h2 : strLt d c = true
      · intro h
        rw [if_neg h1, if_pos h2] at h
        exact absurd h (by simp)
      · intro h
        rw [if_neg h1, if_neg h2] at h
        rw [if_neg h2, if_neg h1]
        exact pathLt_asymm cs ds h

theorem pathLt_conn : ∀ a b : List PyStr,
    pathLt a b = false → pathLt b a = false → a = b
  | [], [] => fun _ _ => rfl
  | [], _ :: _ => by simp [pathLt]
  | _ :: _, [] => by simp [pathLt]
  | c :: cs, d :: ds => by
    simp only [pathLt]
    by_cases h1 : strLt c d = true
    · intro h _
      rw [if_pos h1] at h
      exact absurd h (by simp)
    · by_cases h2 : strLt d c = true
      · intro _ h
        rw [if_pos h2] at h
        exact absurd h (by simp)
      · intro h h'
        rw [if_neg h1, if_neg h2] at h
        rw [if_neg h2, if_neg h1] at h'
        have hcd : c = d :=
          strLt_conn c d (Bool.not_eq_true _ ▸ h1) (Bool.not_eq_true _ ▸ h2)
        rw [hcd, pathLt_conn cs ds h h']

theorem pathLt_trans : ∀ a b c : List PyStr,
    pathLt a b = true → pathLt b c = true → pathLt a c = true
  | [], b, [] => by
    intro _ h
    cases b with
    | nil => simp [pathLt] at h
    | cons y ys => simp [pathLt] at h
  | [], _, _ :: _ => fun _ _ => rfl
  | _ :: _, [], _ => by simp [pathLt]
  | x :: xs, y :: ys, [] => by intro _ h; simp [pathLt] at h
  | x :: xs, y :: ys, z :: zs => by
    intro h1 h2
    simp only [pathLt] at h1 h2 ⊢
    by_cases hxy : strLt x y = true
    · by_cases hyz : strLt y z = true
      · rw [if_pos (strLt_trans x y z hxy hyz)]
      · by_cases hzy : strLt z y = true
        · rw [if_neg hyz, if_pos hzy] at h2
          exact absurd h2 (by simp)
        · have hy : y = z :=
            strLt_conn y z (Bool.not_eq_true _ ▸ hyz) (Bool.not_eq_true _ ▸ hzy)
          rw [← hy, if_pos hxy]
    · by_cases hyx : strLt y x = true
      · rw [if_neg hxy, if_pos hyx] at h1
        exact absurd h1 (by simp)
      · have hx : x = y :=
          strLt_conn x y (Bool.not_eq_true _ ▸ hxy) (Bool.not_eq_true _ ▸ hyx)
        subst hx
        rw [if_neg hxy, if_neg hyx] at h1
        by_cases hxz : strLt x z = true
        · rw [if_pos hxz]
        · by_cases hzx : strLt z x = true
          · rw [if_neg hxz, if_pos hzx] at h2
            exact absurd h2 (by simp)
          · rw [if_neg hxz, if_neg hzx] at h2 ⊢
            exact pathLt_trans xs ys zs h1 h2

/-- Negative transitivity: not-greater composes. -/
theorem pathLt_negTrans (a b c : List PyStr) (h1 : pathLt b a = false)
    (h2 : pathLt c b = false) : pathLt c a = false := by
  by_contra hca
  rw [Bool.not_eq_false] at hca
  cases hbc : pathLt b c with
  | true => simp [pathLt_trans b c a hbc hca] at h1
  | false =>
    have hb : b = c := pathLt_conn b c hbc h2
    rw [hb] at h1
    exact absurd hca (by simp [h1])

/-! ## Sort correctness -/

theorem insertByPath_perm (x : WalkedFile) :
    ∀ l : List WalkedFile, (insertByPath x l).Perm (x :: l)
  | [] => List.Perm.refl _
  | y :: ys => by
    simp only [insertByPath]
    split_ifs with h
    · exact List.Perm.refl _
    · exact ((insertByPath_perm x ys).cons y).trans (List.Perm.swap x y ys)

theorem sortByPath_perm : ∀ l : List WalkedFile, (sortByPath l).Perm l
  | [] => List.Perm.refl _
  | x :: xs =>
    (insertByPath_perm x (sortByPath xs)).trans ((sortByPath_perm xs).cons x)

theorem insertByPath_sorted (x : WalkedFile) :
    ∀ l : List WalkedFile, l.Pairwise (fun a b => pathLt b.1 a.1 = false) →
      (insertByPath x l).Pairwise (fun a b => pathLt b.1 a.1 = false)
  | [] => fun _ => by simp [insertByPath]
  | y :: ys => by
    intro h
    rw [List.pairwise_cons] at h
    obtain ⟨h1, h2⟩ := h
    simp only [insertByPath]
    split_ifs with hlt
    · refine List.Pairwise.cons ?_ (List.Pairwise.cons h1 h2)
      intro z hz
      rcases List.mem_cons.mp hz with rfl | hz
      · exact pathLt_asymm _ _ hlt
      · exact pathLt_negTrans x.1 y.1 z.1 (pathLt_asymm _ _ hlt) (h1 z hz)
    · refine List.Pairwise.cons ?_ (insertByPath_sorted x ys h2)
      intro z hz
      have hz' : z ∈ x :: ys := (insertByPath_perm x ys).subset hz
      rcases List.mem_cons.mp hz' with rfl | hz'
      · exact Bool.not_eq_true _ ▸ hlt
      · exact h1 z hz'

theorem sortByPath_sorted :
    ∀ l : List WalkedFile,
      (sortByPath l).Pairwise (fun a b => pathLt b.1 a.1 = false)
  | [] => by simp [sortByPath]
  | x :: xs => insertByPath_sorted x _ (sortByPath_sorted xs)

/-- Two permutations of each other that are both strictly sorted by the
path key are equal. -/
theorem perm_pairwise_lt_eq : ∀ {l₁ l₂ : List WalkedFile}, l₁.Perm l₂ →
    l₁.Pairwise (fun a b => pathLt a.1 b.1 = true) →
    l₂.Pairwise (fun a b => pathLt a.1 b.1 = true) → l₁ = l₂
  | [], _, h, _, _ => h.nil_eq
  | a :: t₁, [], h, _, _ => by simp [h.eq_nil] at h ⊢
  | a :: t₁, b :: t₂, h, s₁, s₂ => by
    rw [List.pairwise_cons] at s₁ s₂
    by_cases hab : a = b
    · subst hab
      have ht := h.cons_inv
      rw [perm_pairwise_lt_eq ht s₁.2 s₂.2]
    · have ha2 : a ∈ t₂ := by
        have hm := h.subset (List.mem_cons_self a t₁)
        rcases List.mem_cons.mp hm with h' | h'
        · exact absurd h' hab
        · exact h'
      have hb1 : b ∈ t₁ := by
        have hm := h.symm.subset (List.mem_cons_self b t₂)
        rcases List.mem_cons.mp hm with h' | h'
        · exact absurd h'.symm hab
        · exact h'
      have l1 : pathLt a.1 b.1 = true := s₁.1 b hb1
      have l2 : pathLt b.1 a.1 = true := s₂.1 a ha2
      simp [pathLt_asymm _ _ l1] at l2

theorem sortByPath_strict (l : List WalkedFile)
    (hnd : l.Pairwise fun a b => a.1 ≠ b.1) :
    (sortByPath l).Pairwise (fun a b => pathLt a.1 b.1 = true) := by
  have hle := sortByPath_sorted l
  have hne : (sortByPath l).Pairwise (fun a b => a.1 ≠ b.1) :=
    ((sortByPath_perm l).pairwise_iff fun hxy h => hxy h.symm).mpr hnd
  refine (hle.and hne).imp fun {a b} h => ?_
  obtain ⟨h1, h2⟩ := h
  cases hab : pathLt a.1 b.1 with
  | true => rfl
  | false => exact absurd (pathLt_conn _ _ hab h1) h2

/-- The sorted file list does not depend on the enumeration order, as
long as the relative paths are distinct. -/
theorem sortByPath_perm_invariant (l₁ l₂ : List WalkedFile)
    (hnd : l₁.Pairwise fun a b => a.1 ≠ b.1) (hp : l₁.Perm l₂) :
    sortByPath l₁ = sortByPath l₂ := by
  have hnd₂ : l₂.Pairwise (fun a b => a.1 ≠ b.1) :=
    (hp.pairwise_iff fun hxy h => hxy h.symm).mp hnd
  exact perm_pairwise_lt_eq
    ((sortByPath_perm l₁).trans (hp.trans (sortByPath_perm l₂).symm))
    (sortByPath_strict l₁ hnd) (sortByPath_strict l₂ hnd₂)

/-- C7 counterexample: with files `a/b` and `a-x`, the builder's sort
by component list puts `a/b` first, but the byte-wise comparison of the
joined relative paths puts `a-x` first (`-` is 45, `/` is 47): the
produced entry order is not sorted lexicographically by full relative
path compared byte-wise. -/
theorem c7_ordering_counterexample :
    infoPaths (buildMultiFileInfo constDigest 0 "A".toList
        [(["a".toList, "b".toList], [0]), (["a-x".toList], [1])] 2) =
      [["a".toList, "b".toList], ["a-x".toList]]
    ∧ bytesLt (joinRelPath ["a-x".toList])
        (joinRelPath ["a".toList, "b".toList]) = true
    ∧ ¬ (infoPaths (buildMultiFileInfo constDigest 0 "A".toList
        [(["a".toList, "b".toList], [0]), (["a-x".toList], [1])] 2)).Pairwise
        (fun a b => bytesLt (joinRelPath b) (joinRelPath a) = false) := by
  refine ⟨by decide, by decide, by decide⟩

/-- C7 corrected: the multi-file entries are ordered lexicographically
by the list of path components (Python's list-of-strings comparison:
elementwise by code point, a proper prefix first) — not by the
byte-wise joined relative path — and, for distinct relative paths, the
output is independent of the on-disk enumeration order. -/
theorem c7_ordering_amended (sha1 : Bytes → Bytes) (t : Nat)
    (rawBase : PyStr) (p : Nat) (l₁ l₂ : List WalkedFile)
    (hnd : l₁.Pairwise fun a b => a.1 ≠ b.1) (hp : l₁.Perm l₂) :
    buildMultiFileInfo sha1 t rawBase l₁ p = buildMultiFileInfo sha1 t rawBase l₂ p
    ∧ (infoPaths (buildMultiFileInfo sha1 t rawBase l₁ p)).Pairwise
        (fun a b => pathLt a b = true) := by
  constructor
  · simp only [buildMultiFileInfo]
    rw [sortByPath_perm_invariant l₁ l₂ hnd hp]
  · simp only [buildMultiFileInfo, infoPaths]
    exact List.pairwise_map.mpr (List.pairwise_map.mpr (sortByPath_strict l₁ hnd))

/-- Witness for C7's corrected statement: the two enumerations of files
`b` and `a` produce the same sorted output. -/
theorem c7_ordering_amended_witness :
    ([(["b".toList], ([1] : Bytes)), (["a".toList], [2])] :
        List WalkedFile).Pairwise (fun a b => a.1 ≠ b.1)
    ∧ ([(["b".toList], ([1] : Bytes)), (["a".toList], [2])] :
        List WalkedFile).Perm [(["a".toList], [2]), (["b".toList], [1])]
    ∧ buildMultiFileInfo constDigest 0 "A".toList
        [(["b".toList], [1]), (["a".toList], [2])] 2 =
      buildMultiFileInfo constDigest 0 "A".toList
        [(["a".toList], [2]), (["b".toList], [1])] 2
    ∧ (infoPaths (buildMultiFileInfo constDigest 0 "A".toList
        [(["b".toList], [1]), (["a".toList], [2])] 2)).Pairwise
        (fun a b => pathLt a b = true) := by
  have h := c7_ordering_amended constDigest 0 "A".toList 2
    [(["b".toList], [1]), (["a".toList], [2])]
    [(["a".toList], [2]), (["b".toList], [1])] (by decide) (by decide)
  exact ⟨by decide, by decide, h.1, h.2⟩

/-- C8 counterexample: at base name `a:b.flac` the assembler's info
`name` is the raw unsanitised base name, not the claim's
strip-sanitised `ab.flac`; and the module's own sanitiser replaces `:`
with `_` rather than removing it. -/
theorem c8_sanitize_counterexample :
    (buildSingleFileInfo constDigest "a:b.flac".toList [5] 2).name ≠
      specSanitize 0 "a:b.flac".toList
    ∧ (buildSingleFileInfo constDigest "a:b.flac".toList [5] 2).name =
      "a:b.flac".toList
    ∧ specSanitize 0 "a:b.flac".toList = "ab.flac".toList
    ∧ sanitizeFilename 0 "a:b.flac".toList = "a_b.flac".toList :=
  ⟨by decide, by decide, by decide, by decide⟩

/-- The replacement loop of `_sanitize_filename` is a pointwise
substitution: each character in `cs` becomes an underscore and every
other character is kept — no character is removed. -/
theorem foldl_replace_eq (cs : List Char) :
    ∀ s : PyStr, cs.foldl (fun acc c => pyReplaceChar c '_' acc) s
      = s.map fun x => if x ∈ cs then '_' else x := by
  induction cs with
  | nil =>
    intro s
    simp
  | cons c cs ih =>
    intro s
    rw [List.foldl_cons]
    show cs.foldl (fun acc c => pyReplaceChar c '_' acc) (pyReplaceChar c '_' s) = _
    rw [ih (pyReplaceChar c '_' s), pyReplaceChar, List.map_map]
    apply List.map_congr_left
    intro x _
    simp only [Function.comp_apply]
    by_cases hxc : x = c
    · subst hxc
      simp
    · simp [hxc, List.mem_cons]

/-- C8 corrected: the info `name` is the unsanitised base name (single
file: the file's own basename with extension; directory: the raw
directory basename unless empty or `.`); sanitisation — applied only to
the output `.torrent` file name — replaces each of the characters
`\ / : * ? " < > |` with an underscore (pointwise and
length-preserving, removing nothing), then strips leading and trailing
dots and spaces, does not collapse inner whitespace, and falls back to
the timestamp-derived name only when the stripped result is empty. -/
theorem c8_sanitize_amended (sha1 : Bytes → Bytes) (t : Nat) (name : PyStr)
    (content : Bytes) (p : Nat) :
    (buildSingleFileInfo sha1 name content p).name = name
    ∧ (∀ rawBase walkFiles, rawBase ≠ [] → rawBase ≠ ['.'] →
        (buildMultiFileInfo sha1 t rawBase walkFiles p).name = rawBase)
    ∧ replaceInvalid name =
        name.map (fun c => if c ∈ invalidChars then '_' else c)
    ∧ (replaceInvalid name).length = name.length
    ∧ sanitizeFilename t name =
        (if stripDotsSpaces (replaceInvalid name) = [] then albumName t
         else stripDotsSpaces (replaceInvalid name))
    ∧ sanitizeFilename t ('a' :: ' ' :: ' ' :: ['b']) =
        'a' :: ' ' :: ' ' :: ['b'] := by
  refine ⟨rfl, ?_, ?_, ?_, rfl, rfl⟩
  · intro rawBase walkFiles h1 h2
    simp only [buildMultiFileInfo]
    rw [if_neg (by rintro (h | h); exacts [h1 h, h2 h])]
  · exact foldl_replace_eq invalidChars name
  · rw [replaceInvalid, foldl_replace_eq invalidChars name]
    exact List.length_map _ _

/-- Witness for C8's corrected statement: a directory base name with an
inner space is kept verbatim as the info `name`. -/
theorem c8_sanitize_amended_witness :
    ("Disc 1".toList ≠ ([] : PyStr)) ∧ ("Disc 1".toList ≠ (['.'] : PyStr))
    ∧ (buildMultiFileInfo constDigest 4 "Disc 1".toList [] 2).name =
      "Disc 1".toList :=
  ⟨by decide, by decide,
    (c8_sanitize_amended constDigest 4 "x".toList [] 2).2.1 "Disc 1".toList []
      (by decide) (by decide)⟩

/-! ## Dictionary update lemmas for the re-targeting operation -/

theorem bLookup_bSet_self (k : Bytes) (v : BValue) :
    ∀ es : List (Bytes × BValue), bLookup k (bSet k v es) = some v
  | [] => by simp [bSet, bLookup]
  | e :: es => by
    simp only [bSet]
    split_ifs with h
    · simp [bLookup]
    · simp only [bLookup]
      rw [if_neg h, bLookup_bSet_self k v es]

theorem bLookup_bSet_other (k q : Bytes) (v : BValue) (hq : q ≠ k) :
    ∀ es : List (Bytes × BValue), bLookup q (bSet k v es) = bLookup q es
  | [] => by
    simp only [bSet, bLookup]
    rw [if_neg fun h => hq h.symm]
  | e :: es => by
    simp only [bSet]
    split_ifs with h
    · simp only [bLookup]
      rw [if_neg (fun hh => hq hh.symm), if_neg (fun hh => hq (hh.symm.trans h))]
    · simp only [bLookup]
      by_cases he : e.1 = q
      · rw [if_pos he, if_pos he]
      · rw [if_neg he, if_neg he, bLookup_bSet_other k q v hq es]

/-- Appending the `.torrent` extension and splitting it off again is
the identity on any stem containing a non-dot character. -/
theorem splitextRoot_append_torrent (n : PyStr)
    (h : n.any (fun c => c ≠ '.') = true) :
    splitextRoot (n ++ ".torrent".toList) = n := by
  have hrev : (n ++ ".torrent".toList).reverse
      = ['t', 'n', 'e', 'r', 'r', 'o', 't'] ++ '.' :: n.reverse := by
    rw [List.reverse_append]
    rfl
  have hdw : ∀ l : PyStr,
      (['t', 'n', 'e', 'r', 'r', 'o', 't'] ++ '.' :: l).dropWhile
        (fun c => c ≠ '.') = '.' :: l := fun l => rfl
  simp only [splitextRoot]
  rw [hrev, hdw n.reverse]
  simp only [List.any_reverse]
  rw [if_pos h, List.reverse_reverse]

/-- C9: re-targeting an already-built torrent updates only the
`announce` value and — when a truthy `source` is supplied — the
`source` field inside `info`; every other top-level field and every
other info field (in particular `pieces`, `piece length`, `name`,
`length`/`files`) is unchanged; the output file is named
`<name>[<tracker-id>].torrent`; and no hashing is involved (the
operation takes no hash function at all). -/
theorem c9_retarget_frame (es : List (Bytes × BValue))
    (origBasename trackerId announceUrl : PyStr) (sourceArg : Option PyStr) :
    (pyTruthy sourceArg = false →
      createTrackerSpecificTorrent origBasename (.dict es) trackerId
          announceUrl sourceArg
        = .ok (splitextRoot origBasename ++ "[".toList ++ trackerId
            ++ "]".toList ++ ".torrent".toList,
          .dict (bSet announceKey (.str (strBytes announceUrl)) es))
      ∧ bLookup announceKey (bSet announceKey (.str (strBytes announceUrl)) es)
          = some (.str (strBytes announceUrl))
      ∧ ∀ k, k ≠ announceKey →
          bLookup k (bSet announceKey (.str (strBytes announceUrl)) es)
            = bLookup k es)
    ∧ (∀ ies, pyTruthy sourceArg = true →
        bLookup infoKey es = some (.dict ies) →
        ∃ es2 ies2,
          createTrackerSpecificTorrent origBasename (.dict es) trackerId
              announceUrl sourceArg
            = .ok (splitextRoot origBasename ++ "[".toList ++ trackerId
                ++ "]".toList ++ ".torrent".toList, .dict es2)
          ∧ bLookup announceKey es2 = some (.str (strBytes announceUrl))
          ∧ bLookup infoKey es2 = some (.dict ies2)
          ∧ (∀ k, k ≠ announceKey → k ≠ infoKey →
              bLookup k es2 = bLookup k es)
          ∧ bLookup sourceKey ies2 = some (.str (strBytes (sourceArg.getD [])))
          ∧ ∀ k, k ≠ sourceKey → bLookup k ies2 = bLookup k ies)
    ∧ ∀ n : PyStr, n.any (fun c => c ≠ '.') = true →
        splitextRoot (n ++ ".torrent".toList) = n := by
  refine ⟨?_, ?_, fun n hn => splitextRoot_append_torrent n hn⟩
  · intro h
    refine ⟨?_, bLookup_bSet_self _ _ _,
      fun k hk => bLookup_bSet_other _ _ _ hk _⟩
    simp only [createTrackerSpecificTorrent, h]
    rfl
  · intro ies h hinfo
    have hinfo1 : bLookup infoKey
        (bSet announceKey (.str (strBytes announceUrl)) es) =
        some (.dict ies) := by
      rw [bLookup_bSet_other announceKey infoKey _ (by decide) es]
      exact hinfo
    refine ⟨bSet infoKey
        (.dict (bSet sourceKey (.str (strBytes (sourceArg.getD []))) ies))
        (bSet announceKey (.str (strBytes announceUrl)) es),
      bSet sourceKey (.str (strBytes (sourceArg.getD []))) ies,
      ?_, ?_, ?_, ?_, ?_, ?_⟩
    · simp only [createTrackerSpecificTorrent, h]
      rw [if_pos trivial, hinfo1]
    · rw [bLookup_bSet_other infoKey announceKey _ (by decide)]
      exact bLookup_bSet_self _ _ _
    · exact bLookup_bSet_self _ _ _
    · intro k hk1 hk2
      rw [bLookup_bSet_other infoKey k _ hk2, bLookup_bSet_other announceKey k _ hk1]
    · exact bLookup_bSet_self _ _ _
    · intro k hk
      exact bLookup_bSet_other sourceKey k _ hk ies

/-- Witness for C9 on a concrete decoded torrent with a truthy source. -/
theorem c9_retarget_frame_witness :
    pyTruthy (some "TRK".toList) = true
    ∧ bLookup infoKey esW = some (.dict iesW)
    ∧ ∃ es2 ies2,
        createTrackerSpecificTorrent "orig.torrent".toList (.dict esW)
            "RED".toList "http://new/ann".toList (some "TRK".toList)
          = .ok (splitextRoot "orig.torrent".toList ++ "[".toList
              ++ "RED".toList ++ "]".toList ++ ".torrent".toList, .dict es2)
        ∧ bLookup announceKey es2 =
            some (.str (strBytes "http://new/ann".toList))
        ∧ bLookup infoKey es2 = some (.dict ies2)
        ∧ (∀ k, k ≠ announceKey → k ≠ infoKey →
            bLookup k es2 = bLookup k esW)
        ∧ bLookup sourceKey ies2 =
            some (.str (strBytes ((some "TRK".toList).getD [])))
        ∧ ∀ k, k ≠ sourceKey → bLookup k ies2 = bLookup k iesW :=
  ⟨by decide, rfl,
    (c9_retarget_frame esW "orig.torrent".toList "RED".toList
      "http://new/ann".toList (some "TRK".toList)).2.1 iesW (by decide) rfl⟩

end MUA
